import Mathlib

/-!
Shallow embedding of the PSP-22 fungible-token ledger contract
(`src/lib.rs`, module `psp_coin`, with the error type from `src/data.rs`).

Modelling conventions:
* `Address` is an opaque comparable identifier; we use `Nat`.
* `u128` quantities are `Nat` together with explicit checked arithmetic
  against `U128MAX = 2^128 - 1`; `checked_add`/`checked_sub` mirror Rust's
  `u128::checked_add`/`checked_sub`.
* An ink `Mapping` is modelled as a total function with default value `0`,
  because the contract only ever reads it through `get(..).unwrap_or(0)`
  (absence is indistinguishable from `0`) and writes it through `insert`.
* Each message is a function from the pre-state and its arguments to an
  `Outcome`: the returned `Result`, the post-state, and the list of events
  emitted during execution, in order.  The body is a line-by-line
  transcription of the Rust source, including the order of state writes
  relative to the checks (in particular `transfer_from` writes the new
  allowance and emits `Approval` before the balance check, and `mint`
  writes the new balance before the total-supply overflow check).
-/

def U128MAX : Nat := 2 ^ 128 - 1

/-- Rust `u128::checked_add`: `none` exactly when the sum exceeds `U128MAX`. -/
def checked_add (a b : Nat) : Option Nat :=
  if a + b ≤ U128MAX then some (a + b) else none

/-- Rust `u128::checked_sub`: `none` exactly when `b > a`. -/
def checked_sub (a b : Nat) : Option Nat :=
  if b ≤ a then some (a - b) else none

abbrev Address := Nat

/-- `PSP22Error` from `src/data.rs`. -/
inductive PSP22Error where
  | InsufficientBalance
  | InsufficientAllowance
  | Custom (msg : String)
deriving DecidableEq, Repr

/-- The two event shapes of the contract.  The Rust field names `from`/`to`
of the `Transfer` event are rendered `source`/`dest` (`from` is a Lean
keyword); `none` marks an absent party (mint/burn). -/
inductive Event where
  | Transfer (source dest : Option Address) (value : Nat)
  | Approval (owner spender : Address) (value : Nat)
deriving DecidableEq, Repr

/-- The contract storage (`PspCoin` struct): total supply, balance map and
allowance map.  Metadata is static configuration with no logic and is
omitted from the state. -/
structure PspCoin where
  total_supply : Nat
  balances : Address → Nat
  allowances : Address × Address → Nat

/-- Result of executing one message: the returned `Result<(), PSP22Error>`,
the storage after the call, and the events emitted (in order).  On an error
return the state and events are whatever the sequential execution of the
Rust body produced up to the `return Err(..)`. -/
instance {ε α : Type} [DecidableEq ε] [DecidableEq α] : DecidableEq (Except ε α) :=
  fun x y =>
    match x, y with
    | .ok a, .ok b =>
      if h : a = b then isTrue (by rw [h]) else isFalse (fun hh => by cases hh; exact h rfl)
    | .error a, .error b =>
      if h : a = b then isTrue (by rw [h]) else isFalse (fun hh => by cases hh; exact h rfl)
    | .ok _, .error _ => isFalse (fun hh => by cases hh)
    | .error _, .ok _ => isFalse (fun hh => by cases hh)

structure Outcome where
  result : Except PSP22Error Unit
  state : PspCoin
  events : List Event

namespace PspCoin

/-- Constructor `new()`: zero supply, empty maps. -/
def new : PspCoin :=
  { total_supply := 0, balances := fun _ => 0, allowances := fun _ => 0 }

/-- Constructor `new_with_supply(initial_supply)`; `caller` is the resolved
caller identity, credited with the whole supply. -/
def new_with_supply (caller : Address) (initial_supply : Nat) : PspCoin :=
  { total_supply := initial_supply
    balances := Function.update (fun _ => 0) caller initial_supply
    allowances := fun _ => 0 }

/-- Query `balance_of`: `self.balances.get(owner).unwrap_or(0)`. -/
def balance_of (s : PspCoin) (owner : Address) : Nat :=
  s.balances owner

/-- Query `allowance`: `self.allowances.get((owner, spender)).unwrap_or(0)`. -/
def allowance (s : PspCoin) (owner spender : Address) : Nat :=
  s.allowances (owner, spender)

/-- Message `transfer(to, value)`; `caller` is `self.env().caller()`. -/
def transfer (s : PspCoin) (caller to_ : Address) (value : Nat) : Outcome :=
  if caller = to_ ∨ value = 0 then
    ⟨.ok (), s, []⟩
  else
    let from_balance := s.balance_of caller
    if from_balance < value then
      ⟨.error .InsufficientBalance, s, []⟩
    else
      match checked_sub from_balance value with
      | none => ⟨.error .InsufficientBalance, s, []⟩
      | some new_from_balance =>
        match checked_add (s.balance_of to_) value with
        | none => ⟨.error (.Custom ("Overflow")), s, []⟩
        | some new_to_balance =>
          let balances1 := Function.update s.balances caller new_from_balance
          ⟨.ok (),
           { s with balances := Function.update balances1 to_ new_to_balance },
           [.Transfer (some caller) (some to_) value]⟩

/-- The balance check / movement / `Transfer`-event block shared verbatim by
`transfer_from`'s tail (src/lib.rs lines 176-202); `evs` are the events
already emitted earlier in the same call. -/
def moveBalance (s : PspCoin) (evs : List Event) (source to_ : Address) (value : Nat) :
    Outcome :=
  let from_balance := s.balance_of source
  if from_balance < value then
    ⟨.error .InsufficientBalance, s, evs⟩
  else
    match checked_sub from_balance value with
    | none => ⟨.error .InsufficientBalance, s, evs⟩
    | some new_from_balance =>
      match checked_add (s.balance_of to_) value with
      | none => ⟨.error (.Custom ("Overflow")), s, evs⟩
      | some new_to_balance =>
        let balances1 := Function.update s.balances source new_from_balance
        ⟨.ok (),
         { s with balances := Function.update balances1 to_ new_to_balance },
         evs ++ [.Transfer (some source) (some to_) value]⟩

/-- Message `transfer_from(from, to, value)`; `caller` is the resolved
caller.  Note the source order: when `caller ≠ from` the allowance is
checked, decremented and `Approval` emitted *before* the balance step. -/
def transfer_from (s : PspCoin) (caller source to_ : Address) (value : Nat) : Outcome :=
  if source = to_ ∨ value = 0 then
    ⟨.ok (), s, []⟩
  else if caller ≠ source then
    let current_allowance := s.allowance source caller
    if current_allowance < value then
      ⟨.error .InsufficientAllowance, s, []⟩
    else
      match checked_sub current_allowance value with
      | none => ⟨.error .InsufficientAllowance, s, []⟩
      | some new_allowance =>
        let allowances1 := Function.update s.allowances (source, caller) new_allowance
        moveBalance { s with allowances := allowances1 }
          [.Approval source caller new_allowance] source to_ value
  else
    moveBalance s [] source to_ value

/-- Message `approve(spender, value)`; `owner` is the resolved caller. -/
def approve (s : PspCoin) (owner spender : Address) (value : Nat) : Outcome :=
  if owner = spender then
    ⟨.ok (), s, []⟩
  else
    ⟨.ok (),
     { s with allowances := Function.update s.allowances (owner, spender) value },
     [.Approval owner spender value]⟩

/-- Message `increase_allowance(spender, delta_value)`. -/
def increase_allowance (s : PspCoin) (owner spender : Address) (delta_value : Nat) :
    Outcome :=
  if owner = spender ∨ delta_value = 0 then
    ⟨.ok (), s, []⟩
  else
    match checked_add (s.allowance owner spender) delta_value with
    | none => ⟨.error (.Custom ("Allowance overflow")), s, []⟩
    | some new_allowance =>
      let allowances1 := Function.update s.allowances (owner, spender) new_allowance
      ⟨.ok (),
       { s with allowances := allowances1 },
       [.Approval owner spender new_allowance]⟩

/-- Message `decrease_allowance(spender, delta_value)`. -/
def decrease_allowance (s : PspCoin) (owner spender : Address) (delta_value : Nat) :
    Outcome :=
  if owner = spender ∨ delta_value = 0 then
    ⟨.ok (), s, []⟩
  else
    let current_allowance := s.allowance owner spender
    if current_allowance < delta_value then
      ⟨.error .InsufficientAllowance, s, []⟩
    else
      match checked_sub current_allowance delta_value with
      | none => ⟨.error .InsufficientAllowance, s, []⟩
      | some new_allowance =>
        let allowances1 := Function.update s.allowances (owner, spender) new_allowance
        ⟨.ok (),
         { s with allowances := allowances1 },
         [.Approval owner spender new_allowance]⟩

/-- Message `mint(value)`.  Note the source order: the caller's balance is
written before the total-supply overflow check. -/
def mint (s : PspCoin) (caller : Address) (value : Nat) : Outcome :=
  if value = 0 then
    ⟨.ok (), s, []⟩
  else
    match checked_add (s.balance_of caller) value with
    | none => ⟨.error (.Custom ("Balance overflow")), s, []⟩
    | some new_balance =>
      let s1 := { s with balances := Function.update s.balances caller new_balance }
      match checked_add s1.total_supply value with
      | none => ⟨.error (.Custom ("Max supply exceeded")), s1, []⟩
      | some new_supply =>
        ⟨.ok (),
         { s1 with total_supply := new_supply },
         [.Transfer none (some caller) value]⟩

/-- Message `burn(value)`.  The caller's balance is written before the
total-supply subtraction. -/
def burn (s : PspCoin) (caller : Address) (value : Nat) : Outcome :=
  if value = 0 then
    ⟨.ok (), s, []⟩
  else
    let current_balance := s.balance_of caller
    if current_balance < value then
      ⟨.error .InsufficientBalance, s, []⟩
    else
      match checked_sub current_balance value with
      | none => ⟨.error .InsufficientBalance, s, []⟩
      | some new_balance =>
        let s1 := { s with balances := Function.update s.balances caller new_balance }
        match checked_sub s1.total_supply value with
        | none => ⟨.error .InsufficientBalance, s1, []⟩
        | some new_supply =>
          ⟨.ok (),
           { s1 with total_supply := new_supply },
           [.Transfer (some caller) none value]⟩

/-- States reachable from either constructor through any sequence of
message calls, keeping the post-state of failing calls as well as of
successful ones (sequential, no-rollback semantics of the Rust bodies). -/
inductive Reach : PspCoin → Prop where
  | init_new : Reach new
  | init_with_supply (c v : Nat) : Reach (new_with_supply c v)
  | step_transfer {s} (h : Reach s) (c t v : Nat) : Reach (transfer s c t v).state
  | step_transfer_from {s} (h : Reach s) (c f t v : Nat) :
      Reach (transfer_from s c f t v).state
  | step_approve {s} (h : Reach s) (o sp v : Nat) : Reach (approve s o sp v).state
  | step_increase {s} (h : Reach s) (o sp v : Nat) :
      Reach (increase_allowance s o sp v).state
  | step_decrease {s} (h : Reach s) (o sp v : Nat) :
      Reach (decrease_allowance s o sp v).state
  | step_mint {s} (h : Reach s) (c v : Nat) : Reach (mint s c v).state
  | step_burn {s} (h : Reach s) (c v : Nat) : Reach (burn s c v).state

/-- States reachable from either constructor through sequences of
*successful* message calls only. -/
inductive ReachOk : PspCoin → Prop where
  | init_new : ReachOk new
  | init_with_supply (c v : Nat) : ReachOk (new_with_supply c v)
  | step_transfer {s} (h : ReachOk s) (c t v : Nat)
      (hok : (transfer s c t v).result = .ok ()) : ReachOk (transfer s c t v).state
  | step_transfer_from {s} (h : ReachOk s) (c f t v : Nat)
      (hok : (transfer_from s c f t v).result = .ok ()) :
      ReachOk (transfer_from s c f t v).state
  | step_approve {s} (h : ReachOk s) (o sp v : Nat)
      (hok : (approve s o sp v).result = .ok ()) : ReachOk (approve s o sp v).state
  | step_increase {s} (h : ReachOk s) (o sp v : Nat)
      (hok : (increase_allowance s o sp v).result = .ok ()) :
      ReachOk (increase_allowance s o sp v).state
  | step_decrease {s} (h : ReachOk s) (o sp v : Nat)
      (hok : (decrease_allowance s o sp v).result = .ok ()) :
      ReachOk (decrease_allowance s o sp v).state
  | step_mint {s} (h : ReachOk s) (c v : Nat)
      (hok : (mint s c v).result = .ok ()) : ReachOk (mint s c v).state
  | step_burn {s} (h : ReachOk s) (c v : Nat)
      (hok : (burn s c v).result = .ok ()) : ReachOk (burn s c v).state

/-- The post-state of a successful balance movement: debit `f`, credit `t`
(abbreviation for the state literal produced by the success branch of
`transfer`/`moveBalance`). -/
def movedState (s : PspCoin) (f t v : Nat) : PspCoin :=
  let balances1 := Function.update s.balances f (s.balance_of f - v)
  { s with balances := Function.update balances1 t (s.balance_of t + v) }

/-- The supply/balance bookkeeping invariant, relative to a finite set `A`
of accounts that covers every account ever touched: balances vanish off
`A` and the total supply is the sum of the balances over `A`. -/
def SumInv (s : PspCoin) (A : Finset Address) : Prop :=
  (∀ a ∉ A, s.balances a = 0) ∧ s.total_supply = A.sum s.balances

end PspCoin

section Helpers

open PspCoin

lemma checked_sub_eq_some {a b c : Nat} :
    checked_sub a b = some c ↔ b ≤ a ∧ c = a - b := by
  unfold checked_sub
  split <;> simp_all [eq_comm]

lemma checked_add_eq_some {a b c : Nat} :
    checked_add a b = some c ↔ a + b ≤ U128MAX ∧ c = a + b := by
  unfold checked_add
  split <;> simp_all [eq_comm]

lemma checked_sub_of_le {a b : Nat} (h : b ≤ a) : checked_sub a b = some (a - b) := by
  simp [checked_sub, h]

lemma checked_add_of_le {a b : Nat} (h : a + b ≤ U128MAX) :
    checked_add a b = some (a + b) := by
  simp [checked_add, h]

end Helpers

/-- Branch-level characterization of `moveBalance`: the `Option` matches of
the checked arithmetic collapse into plain conditionals. -/
lemma PspCoin.moveBalance_def (s : PspCoin) (evs : List Event) (f t v : Nat) :
    s.moveBalance evs f t v =
      if s.balance_of f < v then ⟨.error .InsufficientBalance, s, evs⟩
      else if s.balance_of t + v ≤ U128MAX then
        ⟨.ok (), s.movedState f t v, evs ++ [.Transfer (some f) (some t) v]⟩
      else ⟨.error (.Custom ("Overflow")), s, evs⟩ := by
  by_cases h1 : s.balance_of f < v
  · simp [PspCoin.moveBalance, h1]
  · have hle : v ≤ s.balance_of f := Nat.not_lt.mp h1
    by_cases h2 : s.balance_of t + v ≤ U128MAX
    · simp [PspCoin.moveBalance, PspCoin.movedState, h1, h2, checked_sub_of_le hle,
        checked_add_of_le h2]
    · have hnone : checked_add (s.balance_of t) v = none := by
        simp [checked_add, h2]
      simp [PspCoin.moveBalance, h1, h2, checked_sub_of_le hle, hnone]

/-- C7: for every state, `transfer(x, x, v)` and `transfer(x, y, 0)` succeed,
change no balance, no allowance and not the total supply, and emit no
notification: the outcome is `Ok` with the state unchanged and no events. -/
theorem transfer_noop_self_or_zero (s : PspCoin) (x y : Address) (v : Nat) :
    s.transfer x x v = ⟨.ok (), s, []⟩ ∧ s.transfer x y 0 = ⟨.ok (), s, []⟩ := by
  constructor <;> simp [PspCoin.transfer]

/-- C3 (amended): for every starting state, accounts `o ≠ s` and value `V`,
`approve(o, s, V)` succeeds and a subsequent `allowance(o, s)` returns `V`.
(For `o = s` the call is a no-op and the prior allowance is returned.) -/
theorem approve_allowance_round_trip (s : PspCoin) (o sp V : Nat) (h : o ≠ sp) :
    (s.approve o sp V).state.allowance o sp = V ∧ (s.approve o sp V).result = .ok () := by
  simp [PspCoin.approve, h, PspCoin.allowance, Function.update_same]

/-- Witness for C3 (amended) at a concrete input. -/
theorem approve_allowance_round_trip_witness :
    (PspCoin.new.approve 0 1 7).state.allowance 0 1 = 7 ∧
      (PspCoin.new.approve 0 1 7).result = .ok () :=
  approve_allowance_round_trip PspCoin.new 0 1 7 (by decide)

/-- Counterexample to C3 as stated: with `o = s = 0` and `V = 7`, `approve`
succeeds (it is a self-approval no-op) but the subsequent `allowance` query
returns `0`, not `7`. -/
theorem approve_self_breaks_round_trip :
    (PspCoin.new.approve 0 0 7).state.allowance 0 0 ≠ 7 ∧
      (PspCoin.new.approve 0 0 7).result = .ok () := by
  decide

/-- C4: whenever `transfer(a, b, v)` with `a ≠ b` and `v > 0` succeeds, the
balance of `a` decreases by exactly `v`, the balance of `b` increases by
exactly `v`, and the total supply is unchanged. -/
theorem transfer_conservation (s : PspCoin) (a b : Address) (v : Nat)
    (hab : a ≠ b) (hv : 0 < v) (hok : (s.transfer a b v).result = .ok ()) :
    (s.transfer a b v).state.balance_of a + v = s.balance_of a ∧
      (s.transfer a b v).state.balance_of b = s.balance_of b + v ∧
      (s.transfer a b v).state.total_supply = s.total_supply := by
  have hcond : ¬(a = b ∨ v = 0) := by
    push_neg
    exact ⟨hab, hv.ne'⟩
  by_cases hfb : s.balance_of a < v
  · simp [PspCoin.transfer, hcond, hfb] at hok
  · have hle : v ≤ s.balance_of a := Nat.not_lt.mp hfb
    cases hadd : checked_add (s.balance_of b) v with
    | none =>
      simp [PspCoin.transfer, hcond, hfb, checked_sub_of_le hle, hadd] at hok
    | some ntb =>
      obtain ⟨hmax, hntb⟩ := checked_add_eq_some.mp hadd
      simp only [PspCoin.transfer, if_neg hcond, if_neg hfb,
        checked_sub_of_le hle, hadd] at hok ⊢
      subst hntb
      have hle' : v ≤ s.balances a := hle
      refine ⟨?_, ?_, trivial⟩
      · simp [PspCoin.balance_of, Function.update_noteq hab, Function.update_same]
        omega
      · simp [PspCoin.balance_of, Function.update_same]

/-- Witness for C4 at a concrete input. -/
theorem transfer_conservation_witness :
    ((PspCoin.new_with_supply 0 1000).transfer 0 1 100).state.balance_of 0 + 100
        = (PspCoin.new_with_supply 0 1000).balance_of 0 ∧
      ((PspCoin.new_with_supply 0 1000).transfer 0 1 100).state.balance_of 1
        = (PspCoin.new_with_supply 0 1000).balance_of 1 + 100 ∧
      ((PspCoin.new_with_supply 0 1000).transfer 0 1 100).state.total_supply
        = (PspCoin.new_with_supply 0 1000).total_supply :=
  transfer_conservation (PspCoin.new_with_supply 0 1000) 0 1 100 (by decide) (by decide)
    (by decide)

/-- C9 (amended): whenever `increase_allowance(owner, spender, delta)`
succeeds, the subsequent `decrease_allowance(owner, spender, delta)` also
succeeds and restores `allowance(owner, spender)` exactly to its value
before the increase.  (If the increase fails with an overflow, the pair of
calls is not a round trip: the decrease still fires on the old value.) -/
theorem increase_then_decrease_round_trip (s : PspCoin) (o sp d : Nat)
    (hok : (s.increase_allowance o sp d).result = .ok ()) :
    ((s.increase_allowance o sp d).state.decrease_allowance o sp d).state.allowance o sp
        = s.allowance o sp ∧
      ((s.increase_allowance o sp d).state.decrease_allowance o sp d).result = .ok () := by
  by_cases hcond : o = sp ∨ d = 0
  · simp [PspCoin.increase_allowance, PspCoin.decrease_allowance, hcond]
  · cases hadd : checked_add (s.allowance o sp) d with
    | none => simp [PspCoin.increase_allowance, hcond, hadd] at hok
    | some na =>
      obtain ⟨hmax, hna⟩ := checked_add_eq_some.mp hadd
      subst hna
      have hstate : (s.increase_allowance o sp d).state
          = { s with allowances :=
                Function.update s.allowances (o, sp) (s.allowance o sp + d) } := by
        simp [PspCoin.increase_allowance, hcond, hadd]
      rw [hstate]
      have hallow :
          ({ s with allowances :=
              Function.update s.allowances (o, sp) (s.allowance o sp + d) }
            : PspCoin).allowance o sp = s.allowance o sp + d := by
        simp [PspCoin.allowance, Function.update_same]
      have hlt : ¬ (s.allowances (o, sp) + d < d) := by omega
      have hsub : checked_sub (s.allowances (o, sp) + d) d = some (s.allowances (o, sp)) := by
        rw [checked_sub_of_le (by omega)]
        congr 1
        omega
      simp [PspCoin.decrease_allowance, hcond, PspCoin.allowance, Function.update_same,
        hlt, hsub]

/-- Witness for C9 (amended) at a concrete input. -/
theorem increase_then_decrease_round_trip_witness :
    (((PspCoin.new.approve 0 1 100).state.increase_allowance 0 1 50).state.decrease_allowance
          0 1 50).state.allowance 0 1
        = (PspCoin.new.approve 0 1 100).state.allowance 0 1 ∧
      (((PspCoin.new.approve 0 1 100).state.increase_allowance 0 1 50).state.decrease_allowance
          0 1 50).result = .ok () :=
  increase_then_decrease_round_trip (PspCoin.new.approve 0 1 100).state 0 1 50 (by decide)

/-- Counterexample to C9 as stated: from a state whose allowance is already
at the maximum representable value, `increase_allowance(0, 1, 1)` fails with
an overflow (leaving the allowance untouched) and the following
`decrease_allowance(0, 1, 1)` then succeeds, so the pair of calls leaves the
allowance one below its starting value instead of restoring it. -/
theorem increase_then_decrease_not_round_trip_at_max :
    (((PspCoin.new.approve 0 1 U128MAX).state.increase_allowance 0 1 1).state.decrease_allowance
          0 1 1).state.allowance 0 1
        ≠ (PspCoin.new.approve 0 1 U128MAX).state.allowance 0 1 ∧
      ((PspCoin.new.approve 0 1 U128MAX).state.increase_allowance 0 1 1).result
        = .error (.Custom ("Allowance overflow")) ∧
      (((PspCoin.new.approve 0 1 U128MAX).state.increase_allowance 0 1 1).state.decrease_allowance
          0 1 1).result = .ok () := by
  decide

/-- C6 (amended): `transfer_from` with `caller == from` never consults the
allowance map: the entire allowance map is unchanged on every path (even if
`allowance(from, from)` is 0), the call never fails with
`InsufficientAllowance`, and it succeeds exactly when the no-op or the
balance conditions hold — a condition independent of every allowance.  (As
stated the claim is false: such a call still fails with
`InsufficientBalance` when the owner's balance is too small.) -/
theorem transfer_from_self_bypasses_allowance (s : PspCoin) (c t v : Nat) :
    (s.transfer_from c c t v).state.allowances = s.allowances ∧
      (s.transfer_from c c t v).result ≠ .error .InsufficientAllowance ∧
      ((s.transfer_from c c t v).result = .ok ()
        ↔ c = t ∨ v = 0 ∨ (v ≤ s.balance_of c ∧ s.balance_of t + v ≤ U128MAX)) := by
  by_cases h1 : c = t ∨ v = 0
  · refine ⟨by simp [PspCoin.transfer_from, h1], by simp [PspCoin.transfer_from, h1], ?_⟩
    simp only [PspCoin.transfer_from, if_pos h1]
    constructor
    · intro _
      rcases h1 with h | h
      · exact Or.inl h
      · exact Or.inr (Or.inl h)
    · intro _
      trivial
  · have hrw : s.transfer_from c c t v = s.moveBalance [] c t v := by
      simp [PspCoin.transfer_from, h1]
    rw [hrw, PspCoin.moveBalance_def]
    push_neg at h1
    split_ifs with h2 h3
    · refine ⟨rfl, by simp, ?_⟩
      constructor
      · intro h
        simp at h
      · rintro (h | h | ⟨h4, h5⟩)
        · exact absurd h h1.1
        · exact absurd h h1.2
        · exact absurd h4 (by omega)
    · refine ⟨rfl, by simp, ?_⟩
      constructor
      · intro _
        exact Or.inr (Or.inr ⟨Nat.not_lt.mp h2, h3⟩)
      · intro _
        rfl
    · refine ⟨rfl, by simp, ?_⟩
      constructor
      · intro h
        simp at h
      · rintro (h | h | ⟨h4, h5⟩)
        · exact absurd h h1.1
        · exact absurd h h1.2
        · exact absurd h5 h3

/-- Counterexample to C6 as stated: from the empty ledger,
`transfer_from(0, 0, 1, 5)` with `caller == from == 0` does not succeed —
it fails with `InsufficientBalance` (balance 0 < 5). -/
theorem transfer_from_self_can_fail :
    (PspCoin.new.transfer_from 0 0 1 5).result = .error .InsufficientBalance := by
  decide

/-- C5: in `transfer_from(caller, from, to, value)` with `from ≠ to`,
`value > 0` and `caller ≠ from`: an allowance below `value` makes the call
fail with `InsufficientAllowance`; on success the allowance is decremented
by exactly `value` and exactly one `Approval` notification is emitted,
carrying the new (post-decrement) allowance — the events are exactly the
`Approval` followed by the `Transfer`.  The concrete delegated-spend
scenario (owner balance 1000, allowance 200, spend 100) is also checked. -/
theorem transfer_from_allowance_semantics (s : PspCoin) (c f t v : Nat)
    (hcf : c ≠ f) (hft : f ≠ t) (hv : 0 < v) :
    (s.allowance f c < v →
        (s.transfer_from c f t v).result = .error .InsufficientAllowance) ∧
      ((s.transfer_from c f t v).result = .ok () →
        (s.transfer_from c f t v).state.allowance f c + v = s.allowance f c ∧
          (s.transfer_from c f t v).events
            = [.Approval f c (s.allowance f c - v), .Transfer (some f) (some t) v]) ∧
      ((((PspCoin.new_with_supply 0 1000).approve 0 1 200).state.transfer_from
            1 0 2 100).result = .ok () ∧
        (((PspCoin.new_with_supply 0 1000).approve 0 1 200).state.transfer_from
            1 0 2 100).state.balance_of 0 = 900 ∧
        (((PspCoin.new_with_supply 0 1000).approve 0 1 200).state.transfer_from
            1 0 2 100).state.balance_of 2 = 100 ∧
        (((PspCoin.new_with_supply 0 1000).approve 0 1 200).state.transfer_from
            1 0 2 100).state.allowance 0 1 = 100) := by
  have hcond : ¬(f = t ∨ v = 0) := by
    push_neg
    exact ⟨hft, hv.ne'⟩
  refine ⟨?_, ?_, by decide⟩
  · intro hal
    simp [PspCoin.transfer_from, hcond, hcf, hal]
  · intro hok
    by_cases hal : s.allowance f c < v
    · have herr : (s.transfer_from c f t v).result = .error .InsufficientAllowance := by
        simp [PspCoin.transfer_from, hcond, hcf, hal]
      rw [herr] at hok
      cases hok
    · have hle : v ≤ s.allowance f c := Nat.not_lt.mp hal
      have hrw : s.transfer_from c f t v
          = PspCoin.moveBalance
              { s with allowances :=
                  Function.update s.allowances (f, c) (s.allowance f c - v) }
              [.Approval f c (s.allowance f c - v)] f t v := by
        simp [PspCoin.transfer_from, hcond, hcf, hal, checked_sub_of_le hle]
      rw [hrw, PspCoin.moveBalance_def] at hok ⊢
      split_ifs at hok ⊢ with h2 h3
      refine ⟨?_, rfl⟩
      have hle' : v ≤ s.allowances (f, c) := hle
      simp [PspCoin.movedState, PspCoin.allowance, Function.update_same]
      omega

/-- Witness for C5 at the concrete delegated-spend scenario. -/
theorem transfer_from_allowance_semantics_witness :
    (((PspCoin.new_with_supply 0 1000).approve 0 1 200).state.transfer_from
          1 0 2 100).state.allowance 0 1 + 100
        = ((PspCoin.new_with_supply 0 1000).approve 0 1 200).state.allowance 0 1 ∧
      (((PspCoin.new_with_supply 0 1000).approve 0 1 200).state.transfer_from
          1 0 2 100).events
        = [.Approval 0 1 100, .Transfer (some 0) (some 2) 100] :=
  (transfer_from_allowance_semantics
      ((PspCoin.new_with_supply 0 1000).approve 0 1 200).state 1 0 2 100
      (by decide) (by decide) (by decide)).2.1 (by decide)

/-- Two distinct accounts hold at most the whole sum of a balance map that
vanishes outside `A`. -/
lemma two_le_sum (A : Finset Address) (g : Address → Nat) (hg : ∀ a ∉ A, g a = 0)
    (x y : Address) (hxy : x ≠ y) : g x + g y ≤ A.sum g := by
  by_cases hx : x ∈ A
  · by_cases hy : y ∈ A
    · have hyx : y ∈ A.erase x := Finset.mem_erase.mpr ⟨Ne.symm hxy, hy⟩
      have h1 : g y ≤ (A.erase x).sum g :=
        Finset.single_le_sum (fun i _ => Nat.zero_le (g i)) hyx
      have h2 : g x + (A.erase x).sum g = A.sum g := Finset.add_sum_erase A g hx
      omega
    · have h0 : g y = 0 := hg y hy
      have h1 : g x ≤ A.sum g := Finset.single_le_sum (fun i _ => Nat.zero_le (g i)) hx
      omega
  · have h0 : g x = 0 := hg x hx
    by_cases hy : y ∈ A
    · have h1 : g y ≤ A.sum g := Finset.single_le_sum (fun i _ => Nat.zero_le (g i)) hy
      omega
    · have h1 : g y = 0 := hg y hy
      omega

/-- C8: from any state satisfying the supply invariant (balances vanish off
`A` and `total_supply = Σ balances over A`) with a representable supply,
a `transfer(caller, to, value)` with `caller ≠ to` that passes the sender
balance check never returns the generic overflow error — indeed it
succeeds outright. -/
theorem transfer_never_overflows_under_invariant (s : PspCoin) (A : Finset Address)
    (hinv : s.SumInv A) (hcap : s.total_supply ≤ U128MAX) (c t v : Nat)
    (hct : c ≠ t) (hbal : v ≤ s.balance_of c) :
    (s.transfer c t v).result ≠ .error (.Custom ("Overflow")) ∧
      (s.transfer c t v).result = .ok () := by
  obtain ⟨hzero, hsum⟩ := hinv
  by_cases hcond : c = t ∨ v = 0
  · constructor <;> simp [PspCoin.transfer, hcond]
  · have hbal' : v ≤ s.balances c := hbal
    have h2 := two_le_sum A s.balances hzero t c (Ne.symm hct)
    have hbound' : s.balances t + v ≤ U128MAX := by omega
    have hbound : s.balance_of t + v ≤ U128MAX := hbound'
    have hnlt : ¬ (s.balance_of c < v) := Nat.not_lt.mpr hbal
    constructor <;>
      simp [PspCoin.transfer, hcond, hnlt, checked_sub_of_le hbal,
        checked_add_of_le hbound]

/-- Witness for C8 at a concrete input. -/
theorem transfer_never_overflows_under_invariant_witness :
    ((PspCoin.new_with_supply 0 10).transfer 0 1 5).result
        ≠ .error (.Custom ("Overflow")) ∧
      ((PspCoin.new_with_supply 0 10).transfer 0 1 5).result = .ok () :=
  transfer_never_overflows_under_invariant (PspCoin.new_with_supply 0 10) {0}
    ⟨fun a ha => by
        have hne : a ≠ 0 := by simpa using ha
        simp [PspCoin.new_with_supply, Function.update_noteq hne],
      by decide⟩
    (by decide) 0 1 5 (by decide) (by decide)

/-- C1 (amended): when an operation returns an error, `transfer`, `approve`,
`increase_allowance` and `decrease_allowance` leave the ledger state
entirely unchanged and emit nothing.  A failing `transfer_from` leaves all
balances and the total supply unchanged (but may have consumed allowance
and emitted an `Approval` first — see the counterexample), and a failing
`mint` or `burn` leaves all allowances and the total supply unchanged and
emits nothing (but may have updated the caller's balance first). -/
theorem error_leaves_ledger_unchanged (s : PspCoin) (a b : Address) (v : Nat) :
    (∀ e, (s.transfer a b v).result = .error e →
      (s.transfer a b v).state = s ∧ (s.transfer a b v).events = []) ∧
    (∀ e, (s.approve a b v).result = .error e →
      (s.approve a b v).state = s ∧ (s.approve a b v).events = []) ∧
    (∀ e, (s.increase_allowance a b v).result = .error e →
      (s.increase_allowance a b v).state = s ∧ (s.increase_allowance a b v).events = []) ∧
    (∀ e, (s.decrease_allowance a b v).result = .error e →
      (s.decrease_allowance a b v).state = s ∧ (s.decrease_allowance a b v).events = []) ∧
    (∀ c e, (s.transfer_from c a b v).result = .error e →
      (s.transfer_from c a b v).state.balances = s.balances ∧
        (s.transfer_from c a b v).state.total_supply = s.total_supply) ∧
    (∀ e, (s.mint a v).result = .error e →
      (s.mint a v).state.allowances = s.allowances ∧
        (s.mint a v).state.total_supply = s.total_supply ∧ (s.mint a v).events = []) ∧
    (∀ e, (s.burn a v).result = .error e →
      (s.burn a v).state.allowances = s.allowances ∧
        (s.burn a v).state.total_supply = s.total_supply ∧ (s.burn a v).events = []) := by
  refine ⟨?_, ?_, ?_, ?_, ?_, ?_, ?_⟩
  · intro e he
    by_cases h1 : a = b ∨ v = 0
    · simp [PspCoin.transfer, h1] at he
    · by_cases h2 : s.balance_of a < v
      · have hout : s.transfer a b v = ⟨.error .InsufficientBalance, s, []⟩ := by
          simp [PspCoin.transfer, h1, h2]
        rw [hout]
        exact ⟨rfl, rfl⟩
      · have hle : v ≤ s.balance_of a := Nat.not_lt.mp h2
        by_cases h3 : s.balance_of b + v ≤ U128MAX
        · simp [PspCoin.transfer, h1, h2, checked_sub_of_le hle,
            checked_add_of_le h3] at he
        · have hnone : checked_add (s.balance_of b) v = none := by
            simp [checked_add, h3]
          have hout : s.transfer a b v = ⟨.error (.Custom ("Overflow")), s, []⟩ := by
            simp [PspCoin.transfer, h1, h2, checked_sub_of_le hle, hnone]
          rw [hout]
          exact ⟨rfl, rfl⟩
  · intro e he
    by_cases h : a = b <;> simp [PspCoin.approve, h] at he
  · intro e he
    by_cases h1 : a = b ∨ v = 0
    · simp [PspCoin.increase_allowance, h1] at he
    · by_cases h2 : s.allowance a b + v ≤ U128MAX
      · simp [PspCoin.increase_allowance, h1, checked_add_of_le h2] at he
      · have hnone : checked_add (s.allowance a b) v = none := by
          simp [checked_add, h2]
        have hout : s.increase_allowance a b v
            = ⟨.error (.Custom ("Allowance overflow")), s, []⟩ := by
          simp [PspCoin.increase_allowance, h1, hnone]
        rw [hout]
        exact ⟨rfl, rfl⟩
  · intro e he
    by_cases h1 : a = b ∨ v = 0
    · simp [PspCoin.decrease_allowance, h1] at he
    · by_cases h2 : s.allowance a b < v
      · have hout : s.decrease_allowance a b v
            = ⟨.error .InsufficientAllowance, s, []⟩ := by
          simp [PspCoin.decrease_allowance, h1, h2]
        rw [hout]
        exact ⟨rfl, rfl⟩
      · have hle : v ≤ s.allowance a b := Nat.not_lt.mp h2
        simp [PspCoin.decrease_allowance, h1, h2, checked_sub_of_le hle] at he
  · intro c e he
    by_cases h1 : a = b ∨ v = 0
    · simp [PspCoin.transfer_from, h1] at he
    · by_cases h2 : c ≠ a
      · by_cases h3 : s.allowance a c < v
        · have hout : s.transfer_from c a b v = ⟨.error .InsufficientAllowance, s, []⟩ := by
            simp [PspCoin.transfer_from, h1, h2, h3]
          rw [hout]
          exact ⟨rfl, rfl⟩
        · have hle : v ≤ s.allowance a c := Nat.not_lt.mp h3
          have hrw : s.transfer_from c a b v
              = PspCoin.moveBalance
                  { s with allowances :=
                      Function.update s.allowances (a, c) (s.allowance a c - v) }
                  [.Approval a c (s.allowance a c - v)] a b v := by
            simp [PspCoin.transfer_from, h1, h2, h3, checked_sub_of_le hle]
          rw [hrw, PspCoin.moveBalance_def] at he ⊢
          split_ifs at he ⊢ <;> exact ⟨rfl, rfl⟩
      · have hrw : s.transfer_from c a b v = s.moveBalance [] a b v := by
          simp [PspCoin.transfer_from, h1, h2]
        rw [hrw, PspCoin.moveBalance_def] at he ⊢
        split_ifs at he ⊢ <;> exact ⟨rfl, rfl⟩
  · intro e he
    by_cases h1 : v = 0
    · simp [PspCoin.mint, h1] at he
    · by_cases h2 : s.balance_of a + v ≤ U128MAX
      · by_cases h3 : s.total_supply + v ≤ U128MAX
        · simp [PspCoin.mint, h1, checked_add_of_le h2, checked_add_of_le h3] at he
        · have hnone : checked_add s.total_supply v = none := by
            simp [checked_add, h3]
          have hout : s.mint a v
              = ⟨.error (.Custom ("Max supply exceeded")),
                 { s with balances := Function.update s.balances a (s.balance_of a + v) },
                 []⟩ := by
            simp [PspCoin.mint, h1, checked_add_of_le h2, hnone]
          rw [hout]
          exact ⟨rfl, rfl, rfl⟩
      · have hnone : checked_add (s.balance_of a) v = none := by
          simp [checked_add, h2]
        have hout : s.mint a v = ⟨.error (.Custom ("Balance overflow")), s, []⟩ := by
          simp [PspCoin.mint, h1, hnone]
        rw [hout]
        exact ⟨rfl, rfl, rfl⟩
  · intro e he
    by_cases h1 : v = 0
    · simp [PspCoin.burn, h1] at he
    · by_cases h2 : s.balance_of a < v
      · have hout : s.burn a v = ⟨.error .InsufficientBalance, s, []⟩ := by
          simp [PspCoin.burn, h1, h2]
        rw [hout]
        exact ⟨rfl, rfl, rfl⟩
      · have hle : v ≤ s.balance_of a := Nat.not_lt.mp h2
        by_cases h3 : v ≤ s.total_supply
        · simp [PspCoin.burn, h1, h2, checked_sub_of_le hle, checked_sub_of_le h3] at he
        · have hnone : checked_sub s.total_supply v = none := by
            simp [checked_sub, h3]
          have hout : s.burn a v
              = ⟨.error .InsufficientBalance,
                 { s with balances := Function.update s.balances a (s.balance_of a - v) },
                 []⟩ := by
            simp [PspCoin.burn, h1, h2, checked_sub_of_le hle, hnone]
          rw [hout]
          exact ⟨rfl, rfl, rfl⟩

/-- Witness for C1 (amended) at a concrete input. -/
theorem error_leaves_ledger_unchanged_witness :
    (PspCoin.new.transfer 0 1 5).state = PspCoin.new ∧
      (PspCoin.new.transfer 0 1 5).events = [] :=
  (error_leaves_ledger_unchanged PspCoin.new 0 1 5).1 .InsufficientBalance (by decide)

/-- Counterexample to C1 as stated: with owner balance 50 and an approved
allowance of 100, `transfer_from(spender = 1, owner = 0, to = 2, 80)`
returns `Err(InsufficientBalance)` yet the allowance has been decremented
from 100 to 20 and an `Approval` notification has been emitted: the failing
call mutated the ledger. -/
theorem transfer_from_error_mutates_ledger :
    (((PspCoin.new_with_supply 0 50).approve 0 1 100).state.transfer_from 1 0 2 80).result
        = .error .InsufficientBalance ∧
      ((PspCoin.new_with_supply 0 50).approve 0 1 100).state.allowance 0 1 = 100 ∧
      (((PspCoin.new_with_supply 0 50).approve 0 1 100).state.transfer_from
          1 0 2 80).state.allowance 0 1 = 20 ∧
      (((PspCoin.new_with_supply 0 50).approve 0 1 100).state.transfer_from
          1 0 2 80).events = [.Approval 0 1 20] := by
  decide

/-- `transfer` is the no-op guard followed by exactly the shared balance
movement block. -/
lemma PspCoin.transfer_eq_moveBalance (s : PspCoin) (c t v : Nat) :
    s.transfer c t v
      = if c = t ∨ v = 0 then ⟨.ok (), s, []⟩ else s.moveBalance [] c t v := by
  by_cases h1 : c = t ∨ v = 0
  · simp [PspCoin.transfer, h1]
  · simp only [if_neg h1]
    by_cases h2 : s.balance_of c < v
    · simp [PspCoin.transfer, PspCoin.moveBalance, h1, h2]
    · have hle : v ≤ s.balance_of c := Nat.not_lt.mp h2
      by_cases h3 : s.balance_of t + v ≤ U128MAX
      · simp [PspCoin.transfer, PspCoin.moveBalance, h1, h2,
          checked_sub_of_le hle, checked_add_of_le h3]
      · have hnone : checked_add (s.balance_of t) v = none := by
          simp [checked_add, h3]
        simp [PspCoin.transfer, PspCoin.moveBalance, h1, h2,
          checked_sub_of_le hle, hnone]

/-- `moveBalance` never touches the allowance map. -/
lemma PspCoin.moveBalance_allowances (s : PspCoin) (evs : List Event) (f t v : Nat) :
    (s.moveBalance evs f t v).state.allowances = s.allowances := by
  rw [PspCoin.moveBalance_def]
  split_ifs <;> rfl

/-- `transfer` never touches the allowance map. -/
lemma PspCoin.transfer_allowances (s : PspCoin) (c t v : Nat) :
    (s.transfer c t v).state.allowances = s.allowances := by
  rw [PspCoin.transfer_eq_moveBalance]
  split_ifs
  · rfl
  · exact PspCoin.moveBalance_allowances s [] c t v

/-- `mint` never touches the allowance map. -/
lemma PspCoin.mint_allowances (s : PspCoin) (c v : Nat) :
    (s.mint c v).state.allowances = s.allowances := by
  by_cases h1 : v = 0
  · simp [PspCoin.mint, h1]
  · by_cases h2 : s.balance_of c + v ≤ U128MAX
    · by_cases h3 : s.total_supply + v ≤ U128MAX
      · simp [PspCoin.mint, h1, checked_add_of_le h2, checked_add_of_le h3]
      · have hnone : checked_add s.total_supply v = none := by
          simp [checked_add, h3]
        simp [PspCoin.mint, h1, checked_add_of_le h2, hnone]
    · have hnone : checked_add (s.balance_of c) v = none := by
        simp [checked_add, h2]
      simp [PspCoin.mint, h1, hnone]

/-- `burn` never touches the allowance map. -/
lemma PspCoin.burn_allowances (s : PspCoin) (c v : Nat) :
    (s.burn c v).state.allowances = s.allowances := by
  by_cases h1 : v = 0
  · simp [PspCoin.burn, h1]
  · by_cases h2 : s.balance_of c < v
    · simp [PspCoin.burn, h1, h2]
    · have hle : v ≤ s.balance_of c := Nat.not_lt.mp h2
      by_cases h3 : v ≤ s.total_supply
      · simp [PspCoin.burn, h1, h2, checked_sub_of_le hle, checked_sub_of_le h3]
      · have hnone : checked_sub s.total_supply v = none := by
          simp [checked_sub, h3]
        simp [PspCoin.burn, h1, h2, checked_sub_of_le hle, hnone]

/-- Updating a map at a point inside the carrier shifts the sum by the
difference between the new and the old value. -/
lemma sum_update_add (A : Finset Address) (f : Address → Nat) (a : Address)
    (ha : a ∈ A) (b : Nat) :
    A.sum (Function.update f a b) + f a = A.sum f + b := by
  rw [Finset.sum_update_of_mem ha, Finset.sdiff_singleton_eq_erase,
    ← Finset.add_sum_erase A f ha]
  omega

/-- A sum over a larger carrier is unchanged when the map vanishes outside
the smaller one. -/
lemma sum_extend (A B : Finset Address) (f : Address → Nat) (hAB : A ⊆ B)
    (hf : ∀ a ∉ A, f a = 0) : B.sum f = A.sum f :=
  (Finset.sum_subset hAB (fun x _ hxA => hf x hxA)).symm

/-- A successful balance movement between two distinct accounts preserves
the supply invariant, enlarging the carrier by the two accounts. -/
lemma PspCoin.movedState_sumInv (s : PspCoin) (A : Finset Address)
    (hinv : s.SumInv A) (f t v : Nat) (hft : f ≠ t) (hv : v ≤ s.balance_of f) :
    (s.movedState f t v).SumInv (insert f (insert t A)) := by
  obtain ⟨hz, hs⟩ := hinv
  have hfB : f ∈ insert f (insert t A) := Finset.mem_insert_self f _
  have htB : t ∈ insert f (insert t A) :=
    Finset.mem_insert_of_mem (Finset.mem_insert_self t A)
  have hsubset : A ⊆ insert f (insert t A) :=
    fun x hx => Finset.mem_insert_of_mem (Finset.mem_insert_of_mem hx)
  have hBsum : (insert f (insert t A)).sum s.balances = A.sum s.balances :=
    sum_extend A _ s.balances hsubset hz
  constructor
  · intro a ha
    have haf : a ≠ f := fun hc => ha (hc ▸ hfB)
    have hat : a ≠ t := fun hc => ha (hc ▸ htB)
    have haA : a ∉ A := fun hc => ha (hsubset hc)
    simp [PspCoin.movedState, Function.update_noteq hat, Function.update_noteq haf,
      hz a haA]
  · have e1 := sum_update_add (insert f (insert t A))
      (Function.update s.balances f (s.balance_of f - v)) t htB (s.balance_of t + v)
    have e2 := sum_update_add (insert f (insert t A)) s.balances f hfB
      (s.balance_of f - v)
    have e3 : Function.update s.balances f (s.balance_of f - v) t = s.balances t :=
      Function.update_noteq (Ne.symm hft) _ _
    have hb : s.balance_of f = s.balances f := rfl
    have hbt : s.balance_of t = s.balances t := rfl
    rw [e3] at e1
    have hv' : v ≤ s.balances f := hv
    show s.total_supply
        = (insert f (insert t A)).sum
            (Function.update (Function.update s.balances f (s.balance_of f - v)) t
              (s.balance_of t + v))
    omega

/-- `moveBalance` between distinct accounts preserves the supply
invariant on every path. -/
lemma PspCoin.moveBalance_sumInv (s : PspCoin) (A : Finset Address)
    (hinv : s.SumInv A) (evs : List Event) (f t v : Nat) (hft : f ≠ t) :
    ∃ B, (s.moveBalance evs f t v).state.SumInv B := by
  rw [PspCoin.moveBalance_def]
  split_ifs with h2 h3
  · exact ⟨A, hinv⟩
  · exact ⟨insert f (insert t A),
      PspCoin.movedState_sumInv s A hinv f t v hft (Nat.not_lt.mp h2)⟩
  · exact ⟨A, hinv⟩

/-- `transfer` preserves the supply invariant on every path. -/
lemma PspCoin.transfer_sumInv (s : PspCoin) (A : Finset Address)
    (hinv : s.SumInv A) (c t v : Nat) :
    ∃ B, (s.transfer c t v).state.SumInv B := by
  rw [PspCoin.transfer_eq_moveBalance]
  split_ifs with h1
  · exact ⟨A, hinv⟩
  · push_neg at h1
    exact PspCoin.moveBalance_sumInv s A hinv [] c t v h1.1

/-- `transfer_from` preserves the supply invariant on every path. -/
lemma PspCoin.transfer_from_sumInv (s : PspCoin) (A : Finset Address)
    (hinv : s.SumInv A) (c f t v : Nat) :
    ∃ B, (s.transfer_from c f t v).state.SumInv B := by
  by_cases h1 : f = t ∨ v = 0
  · simp only [PspCoin.transfer_from, if_pos h1]
    exact ⟨A, hinv⟩
  · have hft : f ≠ t := by
      push_neg at h1
      exact h1.1
    by_cases h2 : c ≠ f
    · by_cases h3 : s.allowance f c < v
      · have hout : s.transfer_from c f t v = ⟨.error .InsufficientAllowance, s, []⟩ := by
          simp [PspCoin.transfer_from, h1, h2, h3]
        rw [hout]
        exact ⟨A, hinv⟩
      · have hle : v ≤ s.allowance f c := Nat.not_lt.mp h3
        have hrw : s.transfer_from c f t v
            = PspCoin.moveBalance
                { s with allowances :=
                    Function.update s.allowances (f, c) (s.allowance f c - v) }
                [.Approval f c (s.allowance f c - v)] f t v := by
          simp [PspCoin.transfer_from, h1, h2, h3, checked_sub_of_le hle]
        rw [hrw]
        exact PspCoin.moveBalance_sumInv
          { s with allowances :=
              Function.update s.allowances (f, c) (s.allowance f c - v) }
          A ⟨hinv.1, hinv.2⟩ [.Approval f c (s.allowance f c - v)] f t v hft
    · have hrw : s.transfer_from c f t v = s.moveBalance [] f t v := by
        simp [PspCoin.transfer_from, h1, h2]
      rw [hrw]
      exact PspCoin.moveBalance_sumInv s A hinv [] f t v hft

/-- `approve` preserves the supply invariant (it only touches allowances). -/
lemma PspCoin.approve_sumInv (s : PspCoin) (A : Finset Address)
    (hinv : s.SumInv A) (o sp v : Nat) :
    ∃ B, (s.approve o sp v).state.SumInv B := by
  by_cases h : o = sp
  · simp only [PspCoin.approve, if_pos h]
    exact ⟨A, hinv⟩
  · simp only [PspCoin.approve, if_neg h]
    exact ⟨A, hinv⟩

/-- `increase_allowance` preserves the supply invariant. -/
lemma PspCoin.increase_sumInv (s : PspCoin) (A : Finset Address)
    (hinv : s.SumInv A) (o sp v : Nat) :
    ∃ B, (s.increase_allowance o sp v).state.SumInv B := by
  by_cases h1 : o = sp ∨ v = 0
  · simp only [PspCoin.increase_allowance, if_pos h1]
    exact ⟨A, hinv⟩
  · by_cases h2 : s.allowance o sp + v ≤ U128MAX
    · have hout : (s.increase_allowance o sp v).state
          = { s with allowances :=
                Function.update s.allowances (o, sp) (s.allowance o sp + v) } := by
        simp [PspCoin.increase_allowance, h1, checked_add_of_le h2]
      rw [hout]
      exact ⟨A, hinv⟩
    · have hnone : checked_add (s.allowance o sp) v = none := by
        simp [checked_add, h2]
      have hout : (s.increase_allowance o sp v).state = s := by
        simp [PspCoin.increase_allowance, h1, hnone]
      rw [hout]
      exact ⟨A, hinv⟩

/-- `decrease_allowance` preserves the supply invariant. -/
lemma PspCoin.decrease_sumInv (s : PspCoin) (A : Finset Address)
    (hinv : s.SumInv A) (o sp v : Nat) :
    ∃ B, (s.decrease_allowance o sp v).state.SumInv B := by
  by_cases h1 : o = sp ∨ v = 0
  · simp only [PspCoin.decrease_allowance, if_pos h1]
    exact ⟨A, hinv⟩
  · by_cases h2 : s.allowance o sp < v
    · have hout : (s.decrease_allowance o sp v).state = s := by
        simp [PspCoin.decrease_allowance, h1, h2]
      rw [hout]
      exact ⟨A, hinv⟩
    · have hle : v ≤ s.allowance o sp := Nat.not_lt.mp h2
      have hout : (s.decrease_allowance o sp v).state
          = { s with allowances :=
                Function.update s.allowances (o, sp) (s.allowance o sp - v) } := by
        simp [PspCoin.decrease_allowance, h1, h2, checked_sub_of_le hle]
      rw [hout]
      exact ⟨A, hinv⟩

/-- A *successful* `mint` preserves the supply invariant. -/
lemma PspCoin.mint_sumInv (s : PspCoin) (A : Finset Address)
    (hinv : s.SumInv A) (c v : Nat) (hok : (s.mint c v).result = .ok ()) :
    ∃ B, (s.mint c v).state.SumInv B := by
  obtain ⟨hz, hs⟩ := hinv
  by_cases h1 : v = 0
  · simp only [PspCoin.mint, if_pos h1]
    exact ⟨A, ⟨hz, hs⟩⟩
  · by_cases h2 : s.balance_of c + v ≤ U128MAX
    · by_cases h3 : s.total_supply + v ≤ U128MAX
      · have hout : (s.mint c v).state
            = { total_supply := s.total_supply + v,
                balances := Function.update s.balances c (s.balance_of c + v),
                allowances := s.allowances } := by
          simp [PspCoin.mint, h1, checked_add_of_le h2, checked_add_of_le h3]
        rw [hout]
        refine ⟨insert c A, ?_, ?_⟩
        · intro a ha
          have hac : a ≠ c := fun hc => ha (hc ▸ Finset.mem_insert_self c A)
          have haA : a ∉ A := fun hc => ha (Finset.mem_insert_of_mem hc)
          simp [Function.update_noteq hac, hz a haA]
        · have hcB : c ∈ insert c A := Finset.mem_insert_self c A
          have hsub : A ⊆ insert c A := Finset.subset_insert c A
          have hBsum : (insert c A).sum s.balances = A.sum s.balances :=
            sum_extend A _ s.balances hsub hz
          have e1 := sum_update_add (insert c A) s.balances c hcB (s.balance_of c + v)
          have hb : s.balance_of c = s.balances c := rfl
          show s.total_supply + v
              = (insert c A).sum (Function.update s.balances c (s.balance_of c + v))
          omega
      · have hnone : checked_add s.total_supply v = none := by
          simp [checked_add, h3]
        simp [PspCoin.mint, h1, checked_add_of_le h2, hnone] at hok
    · have hnone : checked_add (s.balance_of c) v = none := by
        simp [checked_add, h2]
      simp [PspCoin.mint, h1, hnone] at hok

/-- A *successful* `burn` preserves the supply invariant. -/
lemma PspCoin.burn_sumInv (s : PspCoin) (A : Finset Address)
    (hinv : s.SumInv A) (c v : Nat) (hok : (s.burn c v).result = .ok ()) :
    ∃ B, (s.burn c v).state.SumInv B := by
  obtain ⟨hz, hs⟩ := hinv
  by_cases h1 : v = 0
  · simp only [PspCoin.burn, if_pos h1]
    exact ⟨A, ⟨hz, hs⟩⟩
  · by_cases h2 : s.balance_of c < v
    · simp [PspCoin.burn, h1, h2] at hok
    · have hle : v ≤ s.balance_of c := Nat.not_lt.mp h2
      by_cases h3 : v ≤ s.total_supply
      · have hout : (s.burn c v).state
            = { total_supply := s.total_supply - v,
                balances := Function.update s.balances c (s.balance_of c - v),
                allowances := s.allowances } := by
          simp [PspCoin.burn, h1, h2, checked_sub_of_le hle, checked_sub_of_le h3]
        rw [hout]
        refine ⟨insert c A, ?_, ?_⟩
        · intro a ha
          have hac : a ≠ c := fun hc => ha (hc ▸ Finset.mem_insert_self c A)
          have haA : a ∉ A := fun hc => ha (Finset.mem_insert_of_mem hc)
          simp [Function.update_noteq hac, hz a haA]
        · have hcB : c ∈ insert c A := Finset.mem_insert_self c A
          have hsub : A ⊆ insert c A := Finset.subset_insert c A
          have hBsum : (insert c A).sum s.balances = A.sum s.balances :=
            sum_extend A _ s.balances hsub hz
          have e1 := sum_update_add (insert c A) s.balances c hcB (s.balance_of c - v)
          have hb : s.balance_of c = s.balances c := rfl
          have hv' : v ≤ s.balances c := hle
          show s.total_supply - v
              = (insert c A).sum (Function.update s.balances c (s.balance_of c - v))
          omega
      · have hnone : checked_sub s.total_supply v = none := by
          simp [checked_sub, Nat.not_le.mp h3]
        simp [PspCoin.burn, h1, h2, checked_sub_of_le hle, hnone] at hok

/-- The empty constructor satisfies the supply invariant with empty carrier. -/
lemma PspCoin.new_sumInv : PspCoin.new.SumInv ∅ :=
  ⟨fun _ _ => rfl, by simp [PspCoin.new]⟩

/-- The seeded constructor satisfies the supply invariant with carrier
consisting of the funded account. -/
lemma PspCoin.new_with_supply_sumInv (c v : Nat) :
    (PspCoin.new_with_supply c v).SumInv {c} := by
  constructor
  · intro a ha
    have hne : a ≠ c := by simpa using ha
    simp [PspCoin.new_with_supply, Function.update_noteq hne]
  · simp [PspCoin.new_with_supply, Finset.sum_singleton, Function.update_same]

/-- C2 (amended): every state reachable from either constructor by a
sequence of *successful* operations satisfies
`total_supply = Σ balance_of(a)` over a finite carrier containing every
account ever touched.  (As stated over failing operations as well, the
claim is false: a `mint` that fails its total-supply overflow check has
already credited the caller's balance — see the counterexample.) -/
theorem reachable_supply_eq_sum (s : PspCoin) (h : PspCoin.ReachOk s) :
    ∃ A : Finset Address, s.SumInv A := by
  induction h with
  | init_new => exact ⟨∅, PspCoin.new_sumInv⟩
  | init_with_supply c v => exact ⟨{c}, PspCoin.new_with_supply_sumInv c v⟩
  | step_transfer h c t v hok ih =>
    obtain ⟨A, hA⟩ := ih
    exact PspCoin.transfer_sumInv _ A hA c t v
  | step_transfer_from h c f t v hok ih =>
    obtain ⟨A, hA⟩ := ih
    exact PspCoin.transfer_from_sumInv _ A hA c f t v
  | step_approve h o sp v hok ih =>
    obtain ⟨A, hA⟩ := ih
    exact PspCoin.approve_sumInv _ A hA o sp v
  | step_increase h o sp v hok ih =>
    obtain ⟨A, hA⟩ := ih
    exact PspCoin.increase_sumInv _ A hA o sp v
  | step_decrease h o sp v hok ih =>
    obtain ⟨A, hA⟩ := ih
    exact PspCoin.decrease_sumInv _ A hA o sp v
  | step_mint h c v hok ih =>
    obtain ⟨A, hA⟩ := ih
    exact PspCoin.mint_sumInv _ A hA c v hok
  | step_burn h c v hok ih =>
    obtain ⟨A, hA⟩ := ih
    exact PspCoin.burn_sumInv _ A hA c v hok

/-- Witness for C2 (amended) at a concrete reachable state. -/
theorem reachable_supply_eq_sum_witness :
    ∃ A : Finset Address, ((PspCoin.new_with_supply 0 10).transfer 0 1 3).state.SumInv A :=
  reachable_supply_eq_sum _
    (PspCoin.ReachOk.step_transfer (PspCoin.ReachOk.init_with_supply 0 10) 0 1 3
      (by decide))

/-- Counterexample to C2 as stated (reachability through failing calls
included): after `mint(0, u128::MAX)` succeeds from the empty ledger, a
second `mint(1, 1)` fails with the supply overflow error but has already
written balance 1 for account 1, so in the resulting reachable state the
sum of the balances of the two touched accounts exceeds `total_supply`
by one. -/
theorem failing_mint_breaks_supply_invariant :
    PspCoin.Reach ((PspCoin.new.mint 0 U128MAX).state.mint 1 1).state ∧
      ((PspCoin.new.mint 0 U128MAX).state.mint 1 1).result
        = .error (.Custom ("Max supply exceeded")) ∧
      ((PspCoin.new.mint 0 U128MAX).state.mint 1 1).state.total_supply + 1
        = ({0, 1} : Finset Address).sum
            ((PspCoin.new.mint 0 U128MAX).state.mint 1 1).state.balances := by
  refine ⟨PspCoin.Reach.step_mint (PspCoin.Reach.step_mint PspCoin.Reach.init_new
    0 U128MAX) 1 1, by decide, by decide⟩

/-- Updating an allowance entry with distinct owner and spender leaves
every diagonal entry unchanged. -/
lemma update_offdiag (al : Address × Address → Nat) (p q : Address) (hpq : p ≠ q)
    (w : Nat) (x : Address) : Function.update al (p, q) w (x, x) = al (x, x) := by
  apply Function.update_noteq
  intro hc
  rw [Prod.mk.injEq] at hc
  exact hpq (hc.1.symm.trans hc.2)

/-- `transfer` leaves every diagonal allowance entry unchanged. -/
lemma PspCoin.transfer_diag (s : PspCoin) (c t v x : Nat) :
    (s.transfer c t v).state.allowance x x = s.allowance x x := by
  simp only [PspCoin.allowance]
  rw [PspCoin.transfer_allowances]

/-- `mint` leaves every diagonal allowance entry unchanged. -/
lemma PspCoin.mint_diag (s : PspCoin) (c v x : Nat) :
    (s.mint c v).state.allowance x x = s.allowance x x := by
  simp only [PspCoin.allowance]
  rw [PspCoin.mint_allowances]

/-- `burn` leaves every diagonal allowance entry unchanged. -/
lemma PspCoin.burn_diag (s : PspCoin) (c v x : Nat) :
    (s.burn c v).state.allowance x x = s.allowance x x := by
  simp only [PspCoin.allowance]
  rw [PspCoin.burn_allowances]

/-- `approve` leaves every diagonal allowance entry unchanged (the
self-approval branch writes nothing; the other branch writes off the
diagonal). -/
lemma PspCoin.approve_diag (s : PspCoin) (o sp v x : Nat) :
    (s.approve o sp v).state.allowance x x = s.allowance x x := by
  by_cases h : o = sp
  · simp [PspCoin.approve, h]
  · simp only [PspCoin.allowance, PspCoin.approve, if_neg h]
    exact update_offdiag s.allowances o sp h v x

/-- `increase_allowance` leaves every diagonal allowance entry unchanged. -/
lemma PspCoin.increase_diag (s : PspCoin) (o sp v x : Nat) :
    (s.increase_allowance o sp v).state.allowance x x = s.allowance x x := by
  by_cases h1 : o = sp ∨ v = 0
  · simp [PspCoin.increase_allowance, h1]
  · have hne : o ≠ sp := by
      push_neg at h1
      exact h1.1
    by_cases h2 : s.allowance o sp + v ≤ U128MAX
    · have h2' : checked_add (s.allowances (o, sp)) v
          = some (s.allowances (o, sp) + v) := checked_add_of_le h2
      simp only [PspCoin.allowance, PspCoin.increase_allowance, if_neg h1, h2']
      exact update_offdiag s.allowances o sp hne _ x
    · have hnone : checked_add (s.allowance o sp) v = none := by
        simp [checked_add, h2]
      simp [PspCoin.increase_allowance, h1, hnone]

/-- `decrease_allowance` leaves every diagonal allowance entry unchanged. -/
lemma PspCoin.decrease_diag (s : PspCoin) (o sp v x : Nat) :
    (s.decrease_allowance o sp v).state.allowance x x = s.allowance x x := by
  by_cases h1 : o = sp ∨ v = 0
  · simp [PspCoin.decrease_allowance, h1]
  · have hne : o ≠ sp := by
      push_neg at h1
      exact h1.1
    by_cases h2 : s.allowance o sp < v
    · simp [PspCoin.decrease_allowance, h1, h2]
    · have hle : v ≤ s.allowance o sp := Nat.not_lt.mp h2
      have h2' : ¬ s.allowances (o, sp) < v := h2
      have hsub' : checked_sub (s.allowances (o, sp)) v
          = some (s.allowances (o, sp) - v) := checked_sub_of_le hle
      simp only [PspCoin.allowance, PspCoin.decrease_allowance, if_neg h1, if_neg h2',
        hsub']
      exact update_offdiag s.allowances o sp hne _ x

/-- `transfer_from` leaves every diagonal allowance entry unchanged: when
`caller ≠ from` the only allowance write is at the off-diagonal key
`(from, caller)`, and when `caller = from` no allowance is written. -/
lemma PspCoin.transfer_from_diag (s : PspCoin) (c f t v x : Nat) :
    (s.transfer_from c f t v).state.allowance x x = s.allowance x x := by
  by_cases h1 : f = t ∨ v = 0
  · simp [PspCoin.transfer_from, h1]
  · by_cases h2 : c ≠ f
    · by_cases h3 : s.allowance f c < v
      · simp [PspCoin.transfer_from, h1, h2, h3]
      · have hle : v ≤ s.allowance f c := Nat.not_lt.mp h3
        have hrw : s.transfer_from c f t v
            = PspCoin.moveBalance
                { s with allowances :=
                    Function.update s.allowances (f, c) (s.allowance f c - v) }
                [.Approval f c (s.allowance f c - v)] f t v := by
          simp [PspCoin.transfer_from, h1, h2, h3, checked_sub_of_le hle]
        simp only [PspCoin.allowance, hrw]
        rw [PspCoin.moveBalance_allowances]
        exact update_offdiag s.allowances f c (Ne.symm h2) _ x
    · have hrw : s.transfer_from c f t v = s.moveBalance [] f t v := by
        simp [PspCoin.transfer_from, h1, h2]
      simp only [PspCoin.allowance, hrw]
      rw [PspCoin.moveBalance_allowances]

/-- C10: in every state reachable from either constructor by any sequence
of operations — failing calls included — every account's self-allowance is
zero: no operation ever writes a diagonal allowance entry. -/
theorem self_allowance_always_zero (s : PspCoin) (h : PspCoin.Reach s) (x : Address) :
    s.allowance x x = 0 := by
  induction h with
  | init_new => rfl
  | init_with_supply c v => rfl
  | step_transfer h c t v ih => rw [PspCoin.transfer_diag]; exact ih
  | step_transfer_from h c f t v ih => rw [PspCoin.transfer_from_diag]; exact ih
  | step_approve h o sp v ih => rw [PspCoin.approve_diag]; exact ih
  | step_increase h o sp v ih => rw [PspCoin.increase_diag]; exact ih
  | step_decrease h o sp v ih => rw [PspCoin.decrease_diag]; exact ih
  | step_mint h c v ih => rw [PspCoin.mint_diag]; exact ih
  | step_burn h c v ih => rw [PspCoin.burn_diag]; exact ih

/-- Witness for C10 at a concrete reachable state. -/
theorem self_allowance_always_zero_witness :
    ((PspCoin.new.approve 0 1 5).state.allowance 2 2 = 0) ∧
      ((PspCoin.new.approve 0 1 5).state.allowance 0 0 = 0) :=
  ⟨self_allowance_always_zero _
      (PspCoin.Reach.step_approve PspCoin.Reach.init_new 0 1 5) 2,
    self_allowance_always_zero _
      (PspCoin.Reach.step_approve PspCoin.Reach.init_new 0 1 5) 0⟩
